import Mathlib

/-
Verification of the update-existing-release reconciliation logic, a shallow
embedding of src/main.ts.  Strings are Lean strings, remote state is an
explicit record, every remote mutation is recorded in an operation trace,
and fallible code returns Except.
-/

set_option autoImplicit false

namespace UER

/-- Character-list test that the first list is an initial segment of the second. -/
def isPre : List Char → List Char → Bool
  | [], _ => true
  | _ :: _, [] => false
  | p :: ps, c :: cs => p == c && isPre ps cs

/-- JavaScript String.replace with a non-global literal pattern and empty
replacement: removes the first occurrence of the pattern, scanning left to
right, and leaves the string unchanged when the pattern does not occur. -/
def removeFirstL (p : List Char) : List Char → List Char
  | [] => []
  | c :: cs => if isPre p (c :: cs) then List.drop p.length (c :: cs) else c :: removeFirstL p cs

/-- String version of removeFirstL. -/
def removeFirst (p s : String) : String := String.mk (removeFirstL p.toList s.toList)

/-- JavaScript String.replace with a global slash pattern and a dash replacement. -/
def slashesToDashes (s : String) : String :=
  String.mk (s.toList.map (fun ch => if ch == '/' then '-' else ch))

/-- Node path.basename on forward-slash paths: the last path segment, with
trailing separators ignored. -/
def basename (p : String) : String :=
  if p == "" then "."
  else
    let rev := (p.toList.reverse).dropWhile (fun ch => ch == '/')
    if rev == [] then "/" else String.mk ((rev.takeWhile (fun ch => ch != '/')).reverse)

/-- Lines 443-459 of main.ts: resolve the release name (the release input, or
the ref with the refs, heads and tags segments stripped and slashes turned
into dashes) and the tag name (the tag input, defaulting to the release name). -/
def setRelease (releaseIn tagIn ref : String) : String × String :=
  let release :=
    if releaseIn == "" then
      slashesToDashes (removeFirst "tags/" (removeFirst "heads/" (removeFirst "refs/" ref)))
    else releaseIn
  let tag := if tagIn == "" then release else tagIn
  (release, tag)

/-- Lines 522-524 of main.ts. -/
def isTruthyString (s : String) : Bool := s == "true" || s == "yes"

/-- Lines 526-528 of main.ts. -/
def isFalsyString (s : String) : Bool := s == "false" || s == "no"

/-- Lines 402-405 of main.ts: the draft flag parsed from its raw input. -/
def setDraft (draftIn : String) : Bool := isTruthyString draftIn

/-- Lines 438-441 of main.ts: the prerelease flag parsed from its raw input. -/
def setPrerelease (preIn : String) : Bool := !(isFalsyString preIn)

/-- Lines 431-436 of main.ts: the message field starts as the empty string and
setMessage overwrites it only when the message input is empty; a non-empty
input is read into a local variable and then dropped, so the field keeps its
empty default in that case. -/
def messageAfterSet (messageIn release : String) : String :=
  if messageIn == "" then release ++ " (automatically created)" else ""

/-- Membership in the delimiter class of the file-list split regex: space,
comma, carriage return, line feed, tab. -/
def isDelim (ch : Char) : Bool :=
  ch == ' ' || ch == ',' || ch == '\r' || ch == '\n' || ch == '\t'

/-- JavaScript split on the delimiter class with a plus quantifier: maximal
delimiter runs separate the (possibly empty) tokens.  The flag records being
inside a delimiter run. -/
def splitGoF (inDelim : Bool) (acc : List Char) : List Char → List String
  | [] => [String.mk acc.reverse]
  | c :: cs =>
    if isDelim c then
      if inDelim then splitGoF true acc cs
      else String.mk acc.reverse :: splitGoF true [] cs
    else splitGoF false (c :: acc) cs

/-- Line 409 of main.ts: the input file string split on delimiter runs. -/
def splitTokens (s : String) : List String := splitGoF false [] s.toList

/-- Node path.isAbsolute on posix paths. -/
def isAbsolute (p : String) : Bool :=
  match p.toList with
  | [] => false
  | c :: _ => c == '/'

/-- Modelled from library behaviour: Node path.resolve against the workspace
root, without the dot-segment normalisation that does not matter to the
control flow under study. -/
def resolvePath (ws f : String) : String := if isAbsolute f then f else ws ++ "/" ++ f

/-- Node existsSync over a filesystem modelled as the list of existing paths. -/
def existsSync (fs : List String) (p : String) : Bool := fs.contains p

/-- Line 426 of main.ts: backslashes replaced by forward slashes. -/
def backslashToSlash (s : String) : String :=
  String.mk (s.toList.map (fun ch => if ch == '\\' then '/' else ch))

/-- Lines 410-427 of main.ts: resolve one input file token, as given when it
exists and is absolute, otherwise relative to the workspace, failing when
neither resolution finds an existing file. -/
def resolveOneFile (fs : List String) (ws f : String) : Except String String :=
  if !(existsSync fs f) || !(isAbsolute f) then
    let t2 := resolvePath ws f
    if !(existsSync fs t2) then
      Except.error ("could not find " ++ f ++ " as either absolute path or path relative to workspace")
    else if !(existsSync fs t2) then
      Except.error ("could not find file " ++ t2 ++ " for release")
    else Except.ok (backslashToSlash t2)
  else if !(existsSync fs f) then
    Except.error ("could not find file " ++ f ++ " for release")
  else Except.ok (backslashToSlash f)

/-- Lines 407-429 of main.ts: resolve every token of the file list, stopping
at the first failure. -/
def setFilesGo (fs : List String) (ws : String) : List String → Except String (List String)
  | [] => Except.ok []
  | f :: rest =>
    match resolveOneFile fs ws f with
    | Except.error e => Except.error e
    | Except.ok p =>
      match setFilesGo fs ws rest with
      | Except.error e => Except.error e
      | Except.ok ps => Except.ok (p :: ps)

/-- Lines 407-429 of main.ts. -/
def setFiles (fs : List String) (ws filesIn : String) : Except String (List String) :=
  setFilesGo fs ws (splitTokens filesIn)

/-- A sha on the remote: either a commit sha coming from the environment or a
sha generated by the platform for a created object. -/
inductive Sha where
  | commit (s : String)
  | generated (n : Nat)
  deriving DecidableEq

/-- One entry of the repository tag list. -/
structure TagEntry where
  name : String
  sha : Sha
  deriving DecidableEq

/-- An annotated tag object stored on the platform. -/
structure TagObject where
  sha : Nat
  tag : String
  message : String
  object : String
  deriving DecidableEq

/-- One release as listed by the platform. -/
structure Release where
  id : Int
  name : String
  tag_name : String
  body : String
  draft : Bool
  prerelease : Bool
  deriving DecidableEq

/-- One release asset as listed by the platform. -/
structure Asset where
  id : Int
  name : String
  releaseId : Int
  deriving DecidableEq

/-- The remote mutations the action can issue. -/
inductive Op where
  | createTagObject (tag message object : String) (returned : Nat)
  | createRef (ref : String) (sha : Sha)
  | createRelease (tagName name body : String) (draft prerelease : Bool) (id : Int)
  | updateRelease (id : Int) (name body : String) (draft prerelease : Bool)
  | deleteAsset (id : Int)
  | uploadAsset (releaseId : Int) (name : String)
  | updateRef (ref : String) (sha : Sha)
  deriving DecidableEq

/-- The remote platform state: tag refs, tag objects, releases, assets, the
message of the current commit, and the fresh-sha and fresh-id counters of the
platform. -/
structure Remote where
  tags : List TagEntry
  tagObjects : List TagObject
  releases : List Release
  assets : List Asset
  commitMsg : String
  nextSha : Nat
  nextRelId : Int
  nextAssetId : Int
  deriving DecidableEq

/-- The resolved state of the Connection object after construction. -/
structure Conn where
  release : String
  tag : String
  message : String
  body : String
  draft : Bool
  prerelease : Bool
  files : List String
  sha : String
  replaceIn : String
  updateTagIn : String
  deriving DecidableEq

/-- The raw inputs and environment the constructor reads. -/
structure Inputs where
  releaseIn : String
  tagIn : String
  messageIn : String
  bodyIn : String
  draftIn : String
  prereleaseIn : String
  filesIn : String
  replaceIn : String
  updateTagIn : String
  ref : String
  sha : String
  workspace : String
  deriving DecidableEq

/-- Lines 338-357 of main.ts: the first listed repository tag whose name is
the resolved tag name, if any. -/
def getTag (c : Conn) (r : Remote) : Option TagEntry :=
  r.tags.find? (fun t => t.name == c.tag)

/-- Lines 120-129 and 175-190 of main.ts: create an annotated tag object on
the current commit, then a ref for the tag using the sha returned by the tag
object creation. -/
def createTag (c : Conn) (r : Remote) : Remote × List Op :=
  let n := r.nextSha
  ({ r with
      tagObjects := r.tagObjects ++ [⟨n, c.tag, c.message, c.sha⟩],
      tags := r.tags ++ [⟨c.tag, Sha.generated n⟩],
      nextSha := n + 1 },
   [Op.createTagObject c.tag c.message c.sha n,
    Op.createRef ("refs/tags/" ++ c.tag) (Sha.generated n)])

/-- Lines 227-234 and 290-307 of main.ts: list the release names and test
membership of the resolved release name. -/
def doesReleaseExist (c : Conn) (r : Remote) : Bool :=
  (r.releases.map Release.name).contains c.release

/-- Lines 131-150 of main.ts: create a release with the resolved tag name and
metadata; the platform assigns the next fresh id and lists the newest release
first. -/
def createRelease (c : Conn) (r : Remote) : Remote × List Op :=
  let i := r.nextRelId
  ({ r with
      releases := ⟨i, c.release, c.tag, c.body, c.draft, c.prerelease⟩ :: r.releases,
      nextRelId := i + 1 },
   [Op.createRelease c.tag c.release c.body c.draft c.prerelease i])

/-- Lines 276-278 of main.ts: first release of the list whose name equals the
wanted name, by id. -/
def findReleaseId (name : String) : List Release → Except String Int
  | [] => Except.error ("could not find id corresponding to release " ++ name)
  | rel :: rest => if rel.name == name then Except.ok rel.id else findReleaseId name rest

/-- Lines 268-288 of main.ts: the id of the first listed release whose name
equals the resolved release name, failing the run when none matches. -/
def getReleaseID (c : Conn) (r : Remote) : Except String Int :=
  findReleaseId c.release r.releases

/-- Lines 152-173 of main.ts: update name, body, draft and prerelease of the
release with the given id, in place. -/
def updateRelease (c : Conn) (id : Int) (r : Remote) : Remote × List Op :=
  ({ r with
      releases := r.releases.map (fun rel =>
        if rel.id == id then
          { rel with name := c.release, body := c.body, draft := c.draft, prerelease := c.prerelease }
        else rel) },
   [Op.updateRelease id c.release c.body c.draft c.prerelease])

/-- Lines 248-266 of main.ts: the assets of the resolved release, or nothing
on the defensive negative-id branch. -/
def getReleaseAssets (c : Conn) (r : Remote) : Except String (Option (List Asset)) :=
  match getReleaseID c r with
  | Except.error e => Except.error e
  | Except.ok id =>
    if id < 0 then Except.ok none
    else Except.ok (some (r.assets.filter (fun a => a.releaseId == id)))

/-- Lines 197-206 of main.ts: an existing asset is marked for deletion when
replace-all is set, or when its name equals the basename of an incoming file. -/
def shouldDeleteAsset (files : List String) (all : Bool) (a : Asset) : Bool :=
  if all then true else files.any (fun f => a.name == basename f)

/-- Lines 197-219 of main.ts: the deletion calls issued by the asset loop when
every call succeeds. -/
def deleteLoop (files : List String) (all : Bool) : List Asset → List Op
  | [] => []
  | a :: rest =>
    if shouldDeleteAsset files all a then Op.deleteAsset a.id :: deleteLoop files all rest
    else deleteLoop files all rest

/-- Lines 192-225 of main.ts with a failure oracle: ids in failIds are
deletions the platform rejects; the surrounding catch block turns the first
such failure into a fatal stop, so the trace ends at that deletion.  The
boolean reports whether the loop aborted. -/
def deleteLoopF (files : List String) (all : Bool) (failIds : List Int) : List Asset → List Op × Bool
  | [] => ([], false)
  | a :: rest =>
    if shouldDeleteAsset files all a then
      if failIds.contains a.id then ([Op.deleteAsset a.id], true)
      else
        let res := deleteLoopF files all failIds rest
        (Op.deleteAsset a.id :: res.1, res.2)
    else deleteLoopF files all failIds rest

/-- Lines 192-225 of main.ts, success mode: fetch the assets of the release
and delete every marked one. -/
def deleteAssetsIfTheyExist (c : Conn) (all : Bool) (r : Remote) : Except String (Remote × List Op) :=
  match getReleaseAssets c r with
  | Except.error e => Except.error e
  | Except.ok none => Except.error "iterated over an undefined asset list"
  | Except.ok (some assets) =>
    Except.ok
      ({ r with assets := r.assets.filter (fun a => !(assets.contains a && shouldDeleteAsset c.files all a)) },
       deleteLoop c.files all assets)

/-- Lines 309-317 of main.ts: the upload url lookup searches the release list
for the resolved release name. -/
def hasReleaseNamed (c : Conn) (r : Remote) : Bool :=
  r.releases.any (fun rel => rel.name == c.release)

/-- Lines 476-519 of main.ts: upload each file in input order under its
basename, re-resolving the upload target per file and failing when it cannot
be found. -/
def uploadAssets (c : Conn) (id : Int) (r : Remote) : List String → Except String (Remote × List Op)
  | [] => Except.ok (r, [])
  | f :: rest =>
    if hasReleaseNamed c r then
      match uploadAssets c id
          { r with assets := r.assets ++ [⟨r.nextAssetId, basename f, id⟩],
                   nextAssetId := r.nextAssetId + 1 } rest with
      | Except.error e => Except.error e
      | Except.ok s => Except.ok (s.1, Op.uploadAsset id (basename f) :: s.2)
    else Except.error ("could not find upload url corresponding to release " ++ c.release)

/-- Lines 461-474 of main.ts: move the ref of the resolved tag to the current
commit, whatever it pointed at before; the platform rejects the update when
the ref does not exist. -/
def updateTag (c : Conn) (r : Remote) : Except String (Remote × List Op) :=
  if r.tags.any (fun t => t.name == c.tag) then
    Except.ok
      ({ r with tags := r.tags.map (fun t =>
          if t.name == c.tag then { t with sha := Sha.commit c.sha } else t) },
       [Op.updateRef ("tags/" ++ c.tag) (Sha.commit c.sha)])
  else Except.error ("reference does not exist tags/" ++ c.tag)

/-- The outcome of a run: the final remote state, the trace of remote
mutations, and whether the process exited through fail. -/
structure RunResult where
  remote : Remote
  ops : List Op
  failed : Bool
  deriving DecidableEq

/-- Lines 360-366 of main.ts: the tag reconciliation stage of run. -/
def tagStage (c : Conn) (r : Remote) : Remote × List Op :=
  match getTag c r with
  | some _ => (r, [])
  | none => createTag c r

/-- Lines 368-370 of main.ts: the release existence stage of run. -/
def releaseStage (c : Conn) (r : Remote) : Remote × List Op :=
  if doesReleaseExist c r then (r, []) else createRelease c r

/-- Lines 372-383 of main.ts: the tail of run after the release existence
stage: resolve the id, update the release, delete and upload assets, and
optionally repoint the tag. -/
def publishStage (c : Conn) (r : Remote) (ops0 : List Op) : RunResult :=
  match getReleaseID c r with
  | Except.error _ => ⟨r, ops0, true⟩
  | Except.ok id =>
    if 0 ≤ id then
      match deleteAssetsIfTheyExist c (isTruthyString c.replaceIn) (updateRelease c id r).1 with
      | Except.error _ => ⟨(updateRelease c id r).1, ops0 ++ (updateRelease c id r).2, true⟩
      | Except.ok s4 =>
        match uploadAssets c id s4.1 c.files with
        | Except.error _ => ⟨s4.1, ops0 ++ (updateRelease c id r).2 ++ s4.2, true⟩
        | Except.ok s5 =>
          if !(isFalsyString c.updateTagIn) then
            match updateTag c s5.1 with
            | Except.error _ => ⟨s5.1, ops0 ++ (updateRelease c id r).2 ++ s4.2 ++ s5.2, true⟩
            | Except.ok s6 => ⟨s6.1, ops0 ++ (updateRelease c id r).2 ++ s4.2 ++ s5.2 ++ s6.2, false⟩
          else ⟨s5.1, ops0 ++ (updateRelease c id r).2 ++ s4.2 ++ s5.2, false⟩
    else ⟨r, ops0, false⟩

/-- Lines 359-384 of main.ts: the full reconciliation run. -/
def run (c : Conn) (r : Remote) : RunResult :=
  publishStage c (releaseStage c (tagStage c r).1).1
    ((tagStage c r).2 ++ (releaseStage c (tagStage c r).1).2)

/-- Lines 97-118 of main.ts together with the setter methods: construct the
connection state from the raw inputs; only setFiles can fail, and the
constructor performs no remote mutation. -/
def construct (inp : Inputs) (fs : List String) (r : Remote) : Except String Conn :=
  let rel := setRelease inp.releaseIn inp.tagIn inp.ref
  match setFiles fs inp.workspace inp.filesIn with
  | Except.error e => Except.error e
  | Except.ok files =>
    Except.ok
      { release := rel.1, tag := rel.2,
        message := messageAfterSet inp.messageIn rel.1,
        body := if inp.bodyIn == "" then r.commitMsg else inp.bodyIn,
        draft := setDraft inp.draftIn,
        prerelease := setPrerelease inp.prereleaseIn,
        files := files, sha := inp.sha,
        replaceIn := inp.replaceIn, updateTagIn := inp.updateTagIn }

/-- The outcome of a whole invocation of the action. -/
structure MainResult where
  remote : Remote
  ops : List Op
  ok : Bool
  deriving DecidableEq

/-- Lines 530-533 of main.ts: build the connection, then run; a constructor
failure stops the process before any remote call. -/
def main (inp : Inputs) (fs : List String) (r : Remote) : MainResult :=
  match construct inp fs r with
  | Except.error _ => ⟨r, [], false⟩
  | Except.ok c =>
    let res := run c r
    ⟨res.remote, res.ops, !res.failed⟩

/-- Position of the first occurrence of a pattern in a character list. -/
def firstOccIdx (p : List Char) : List Char → Option Nat
  | [] => if isPre p [] then some 0 else none
  | c :: cs => if isPre p (c :: cs) then some 0 else (firstOccIdx p cs).map (fun i => i + 1)

/-- Removal of the first occurrence of a pattern, stated through its position. -/
def occRemove (p s : String) : String :=
  match firstOccIdx p.toList s.toList with
  | none => s
  | some i => String.mk (s.toList.take i ++ s.toList.drop (i + p.toList.length))

/-- Strips the pattern only when it is a leading segment of the string. -/
def stripLeading (p s : String) : String :=
  if isPre p.toList s.toList then String.mk (s.toList.drop p.toList.length) else s

/-- The claim as written for the ref derivation: a leading refs segment
removed, then one leading heads or tags segment removed, then slashes
replaced by dashes. -/
def specLeadingDerive (ref : String) : String :=
  let s1 := stripLeading "refs/" ref
  let s2 :=
    if isPre "heads/".toList s1.toList then stripLeading "heads/" s1
    else stripLeading "tags/" s1
  slashesToDashes s2

/-- Truncation of a deletion trace at the first failing asset id. -/
def haltAtFail (failIds : List Int) : List Op → List Op
  | [] => []
  | op :: rest =>
    match op with
    | Op.deleteAsset i => if failIds.contains i then [op] else op :: haltAtFail failIds rest
    | _ => op :: haltAtFail failIds rest

/-- Whether a deletion trace contains a failing asset id. -/
def hitsFail (failIds : List Int) : List Op → Bool
  | [] => false
  | op :: rest =>
    match op with
    | Op.deleteAsset i => if failIds.contains i then true else hitsFail failIds rest
    | _ => hitsFail failIds rest

/-- Recogniser for release creation operations. -/
def isCreateRel : Op → Bool
  | Op.createRelease _ _ _ _ _ _ => true
  | _ => false

/-- The empty remote state used by concrete witnesses. -/
def emptyRemote : Remote :=
  { tags := [], tagObjects := [], releases := [], assets := [], commitMsg := "",
    nextSha := 0, nextRelId := 0, nextAssetId := 0 }

/-- Recogniser for failed Except computations. -/
def isErr {α : Type} : Except String α → Bool
  | Except.error _ => true
  | Except.ok _ => false

lemma removeFirstL_eq_occ (p : List Char) : ∀ s : List Char,
    removeFirstL p s =
      (match firstOccIdx p s with
       | none => s
       | some i => s.take i ++ s.drop (i + p.length)) := by
  intro s
  induction s with
  | nil =>
    cases h : isPre p [] <;> simp [removeFirstL, firstOccIdx, h]
  | cons c cs ih =>
    by_cases h : isPre p (c :: cs) = true
    · simp [removeFirstL, firstOccIdx, h]
    · rw [removeFirstL, if_neg h, ih]
      rw [firstOccIdx, if_neg h]
      cases hi : firstOccIdx p cs with
      | none => simp
      | some i =>
        have h2 : i + 1 + p.length = (i + p.length) + 1 := by omega
        simp [h2]

lemma removeFirst_eq_occ (p s : String) : removeFirst p s = occRemove p s := by
  unfold removeFirst occRemove
  rw [removeFirstL_eq_occ]
  cases h : firstOccIdx p.toList s.toList <;> simp

/-- C4 counterexample: for the ref a/refs/b with empty release input the code
resolves the release name to a-b, because the replace call removes the first
occurrence of refs/ anywhere in the string, while the claim, which removes a
leading refs/ segment only, predicts a-refs-b. -/
theorem ref_derivation_counterexample :
    (setRelease "" "" "a/refs/b").1 = "a-b"
    ∧ specLeadingDerive "a/refs/b" = "a-refs-b"
    ∧ ("a-b" : String) ≠ "a-refs-b" := by
  exact ⟨by decide, by decide, by decide⟩

/-- C4 amended: when the release input is empty the resolved release name is
the ref with the first occurrence of refs/ removed, then the first occurrence
of heads/ removed, then the first occurrence of tags/ removed, then every
remaining slash replaced by a dash; a non-empty release input is used as
given, an empty tag input defaults the tag name to the resolved release name,
and the two spec examples still resolve as stated. -/
theorem ref_derivation_amended (releaseIn tagIn ref : String) :
    (releaseIn = "" →
        (setRelease releaseIn tagIn ref).1 =
          slashesToDashes (occRemove "tags/" (occRemove "heads/" (occRemove "refs/" ref))))
    ∧ (releaseIn ≠ "" → (setRelease releaseIn tagIn ref).1 = releaseIn)
    ∧ (tagIn = "" → (setRelease releaseIn tagIn ref).2 = (setRelease releaseIn tagIn ref).1)
    ∧ (tagIn ≠ "" → (setRelease releaseIn tagIn ref).2 = tagIn)
    ∧ (setRelease "" "" "refs/heads/feature/x").1 = "feature-x"
    ∧ (setRelease "" "" "refs/tags/v2.0").1 = "v2.0" := by
  refine ⟨?_, ?_, ?_, ?_, by decide, by decide⟩
  · intro h
    subst h
    simp [setRelease, removeFirst_eq_occ]
  · intro h
    simp [setRelease, h]
  · intro h
    subst h
    simp [setRelease]
  · intro h
    simp [setRelease, h]

/-- Witness for the amended C4 theorem at the first spec example. -/
theorem ref_derivation_amended_witness :
    (setRelease "" "" "refs/heads/feature/x").1 =
      slashesToDashes (occRemove "tags/" (occRemove "heads/" (occRemove "refs/" "refs/heads/feature/x"))) :=
  (ref_derivation_amended "" "" "refs/heads/feature/x").1 rfl

/-- C9: the two boolean flags parse asymmetrically: draft is true exactly for
the inputs true and yes, so the empty input means not draft, while prerelease
is true exactly when the input is neither false nor no, so the empty input
means prerelease. -/
theorem flag_parsing_asymmetry :
    (∀ s : String, setDraft s = true ↔ (s = "true" ∨ s = "yes"))
    ∧ (∀ s : String, setPrerelease s = true ↔ ¬(s = "false" ∨ s = "no"))
    ∧ setDraft "" = false ∧ setPrerelease "" = true := by
  refine ⟨fun s => ?_, fun s => ?_, by decide, by decide⟩
  · simp [setDraft, isTruthyString]
  · simp [setPrerelease, isFalsyString, not_or]

/-- Witness for the flag parsing theorem at concrete inputs. -/
theorem flag_parsing_asymmetry_witness :
    setDraft "yes" = true ∧ setPrerelease "banana" = true :=
  ⟨(flag_parsing_asymmetry.1 "yes").mpr (Or.inr rfl),
   (flag_parsing_asymmetry.2.1 "banana").mpr (by decide)⟩

/-- C5 (code bug): with the message input hello and release name v1.0, the
code keeps the empty default tag message, because a non-empty message input
is read into a local variable and never stored, so the tag object created by
the tag stage carries the empty message instead of hello; only the empty
message input produces the documented automatic message. -/
theorem tag_message_dropped :
    messageAfterSet "hello" "v1.0" = ""
    ∧ ("" : String) ≠ "hello"
    ∧ messageAfterSet "" "v1.0" = "v1.0 (automatically created)"
    ∧ (createTag
        { release := "v1.0", tag := "v1.0", message := messageAfterSet "hello" "v1.0",
          body := "", draft := false, prerelease := false, files := [], sha := "c0ffee",
          replaceIn := "", updateTagIn := "" } emptyRemote).2
      = [Op.createTagObject "v1.0" "" "c0ffee" 0,
         Op.createRef "refs/tags/v1.0" (Sha.generated 0)] := by
  exact ⟨rfl, by decide, rfl, by decide⟩

/-- C3: an existing asset is deleted exactly when replace-all is set or its
name equals the basename of an incoming file, shown both by the filter shape
of the deletion trace and by the marking condition, together with the two
concrete scenarios of the spec. -/
theorem asset_deletion_selectivity (files : List String) (all : Bool) (assets : List Asset) :
    deleteLoop files all assets
      = (assets.filter (shouldDeleteAsset files all)).map (fun a => Op.deleteAsset a.id)
    ∧ (∀ a ∈ assets,
        shouldDeleteAsset files all a = true ↔ (all = true ∨ ∃ f ∈ files, a.name = basename f))
    ∧ deleteLoop ["a.zip"] false [⟨1, "a.zip", 7⟩, ⟨2, "b.zip", 7⟩] = [Op.deleteAsset 1]
    ∧ deleteLoop ["a.zip"] true [⟨1, "a.zip", 7⟩, ⟨2, "b.zip", 7⟩]
        = [Op.deleteAsset 1, Op.deleteAsset 2] := by
  refine ⟨?_, ?_, by decide, by decide⟩
  · induction assets with
    | nil => rfl
    | cons a rest ih =>
      by_cases h : shouldDeleteAsset files all a <;>
        simp [deleteLoop, h, ih]
  · intro a _
    cases all <;> simp [shouldDeleteAsset, List.any_eq_true]

/-- Witness for the asset deletion theorem on a concrete marked asset. -/
theorem asset_deletion_selectivity_witness :
    shouldDeleteAsset ["a.zip"] false ⟨1, "a.zip", 7⟩ = true
      ↔ (false = true ∨ ∃ f ∈ ["a.zip"], "a.zip" = basename f) :=
  (asset_deletion_selectivity ["a.zip"] false [⟨1, "a.zip", 7⟩]).2.1 ⟨1, "a.zip", 7⟩ (by decide)

/-- C7 counterexample: with replace-all set, both assets are marked, yet when
the deletion of asset 1 fails the loop stops and the marked asset 2 is never
attempted, contradicting the claim that remaining deletions still happen. -/
theorem deletion_abort_counterexample :
    deleteLoopF [] true [1] [⟨1, "a.zip", 7⟩, ⟨2, "b.zip", 7⟩] = ([Op.deleteAsset 1], true)
    ∧ Op.deleteAsset 2 ∉ (deleteLoopF [] true [1] [⟨1, "a.zip", 7⟩, ⟨2, "b.zip", 7⟩]).1
    ∧ shouldDeleteAsset [] true ⟨2, "b.zip", 7⟩ = true := by
  exact ⟨by decide, by decide, by decide⟩

/-- C7 amended: each deletion is a separate remote call issued in asset-list
order, but the enclosing catch makes the first failing deletion fatal: the
attempted trace is the all-success trace truncated at the first failing id,
and the loop aborts exactly when the all-success trace contains a failing id;
in particular with no failing deletion every marked asset is attempted. -/
theorem deletion_abort_amended (files : List String) (all : Bool) (failIds : List Int)
    (assets : List Asset) :
    deleteLoopF files all failIds assets
      = (haltAtFail failIds (deleteLoop files all assets),
         hitsFail failIds (deleteLoop files all assets)) := by
  induction assets with
  | nil => rfl
  | cons a rest ih =>
    by_cases h : shouldDeleteAsset files all a
    · by_cases hf : a.id ∈ failIds <;>
        simp [deleteLoopF, deleteLoop, haltAtFail, hitsFail, h, hf, ih]
    · simp [deleteLoopF, deleteLoop, h, ih]

lemma findReleaseId_ok_iff (name : String) : ∀ (l : List Release) (i : Int),
    findReleaseId name l = Except.ok i
      ↔ ∃ rel, l.find? (fun rel => rel.name == name) = some rel ∧ rel.id = i := by
  intro l i
  induction l with
  | nil => simp [findReleaseId]
  | cons rel rest ih =>
    by_cases h : (rel.name == name) = true
    · simp [findReleaseId, h, List.find?_cons_of_pos _ h]
    · rw [List.find?_cons_of_neg _ (by simp [h])]
      simp [findReleaseId, h, ih]

/-- C10: getReleaseID either returns the id of the first listed release whose
name equals the resolved release name or fails the run, and whenever every
listed release has a nonnegative id (as the platform guarantees) the returned
id is nonnegative, so the negative-id guards in run and getReleaseAssets
cannot take their skip direction after a normal return. -/
theorem release_id_guards (c : Conn) (r : Remote) :
    (∀ i, getReleaseID c r = Except.ok i →
        ∃ rel, r.releases.find? (fun rel => rel.name == c.release) = some rel ∧ rel.id = i)
    ∧ ((∀ rel ∈ r.releases, 0 ≤ rel.id) → ∀ i, getReleaseID c r = Except.ok i →
        0 ≤ i ∧ ¬(i < 0) ∧ getReleaseAssets c r ≠ Except.ok none) := by
  constructor
  · intro i hi
    exact (findReleaseId_ok_iff c.release r.releases i).mp hi
  · intro hpos i hi
    obtain ⟨rel, hfind, hid⟩ := (findReleaseId_ok_iff c.release r.releases i).mp hi
    have hmem : rel ∈ r.releases := List.mem_of_find?_eq_some hfind
    have h0 : 0 ≤ i := hid ▸ hpos rel hmem
    refine ⟨h0, by omega, ?_⟩
    have hne : ¬ i < 0 := by omega
    unfold getReleaseAssets
    rw [hi]
    simp [hne]

/-- Witness for the release id theorem on a one-release remote. -/
theorem release_id_guards_witness :
    0 ≤ (5 : Int) ∧ ¬((5 : Int) < 0)
      ∧ getReleaseAssets
          { release := "r", tag := "r", message := "", body := "", draft := false,
            prerelease := false, files := [], sha := "s", replaceIn := "", updateTagIn := "" }
          { emptyRemote with releases := [⟨5, "r", "r", "", false, false⟩] }
        ≠ Except.ok none :=
  (release_id_guards _ _).2 (by decide) 5 rfl

/-- C2: when a tag with the resolved name already exists the tag stage issues
no remote mutation and returns that listed tag unchanged, whatever sha it
points at; when none exists it issues exactly one tag object creation bound
to the current commit followed by exactly one ref creation for
refs/tags/(tag name) whose target is the sha returned by the tag object
creation. -/
theorem tag_reconciliation (c : Conn) (r : Remote) :
    (∀ e, getTag c r = some e →
        tagStage c r = (r, []) ∧ e ∈ r.tags ∧ (e.name == c.tag) = true)
    ∧ (getTag c r = none →
        tagStage c r =
          ({ r with
              tagObjects := r.tagObjects ++ [⟨r.nextSha, c.tag, c.message, c.sha⟩],
              tags := r.tags ++ [⟨c.tag, Sha.generated r.nextSha⟩],
              nextSha := r.nextSha + 1 },
           [Op.createTagObject c.tag c.message c.sha r.nextSha,
            Op.createRef ("refs/tags/" ++ c.tag) (Sha.generated r.nextSha)])) := by
  constructor
  · intro e he
    have he' : r.tags.find? (fun t => t.name == c.tag) = some e := he
    have hp : (e.name == c.tag) = true := by
      have hq := List.find?_some he'
      simpa using hq
    exact ⟨by simp [tagStage, he], List.mem_of_find?_eq_some he', hp⟩
  · intro he
    simp [tagStage, he, createTag]

/-- Witness for the tag reconciliation theorem: an existing tag pointing at
an arbitrary other commit is returned unchanged with no mutations. -/
theorem tag_reconciliation_witness :
    tagStage
        { release := "v1.0", tag := "v1.0", message := "", body := "", draft := false,
          prerelease := false, files := [], sha := "new", replaceIn := "", updateTagIn := "" }
        { emptyRemote with tags := [⟨"v1.0", Sha.commit "old"⟩] }
      = ({ emptyRemote with tags := [⟨"v1.0", Sha.commit "old"⟩] }, [])
    ∧ (⟨"v1.0", Sha.commit "old"⟩ : TagEntry)
        ∈ ({ emptyRemote with tags := [⟨"v1.0", Sha.commit "old"⟩] } : Remote).tags
    ∧ ((⟨"v1.0", Sha.commit "old"⟩ : TagEntry).name == "v1.0") = true :=
  (tag_reconciliation _ _).1 ⟨"v1.0", Sha.commit "old"⟩ rfl

lemma resolveOneFile_err (fs : List String) (ws f : String)
    (h1 : (existsSync fs f && isAbsolute f) = false)
    (h2 : existsSync fs (resolvePath ws f) = false) :
    isErr (resolveOneFile fs ws f) = true := by
  unfold resolveOneFile
  cases hE : existsSync fs f <;> cases hA : isAbsolute f <;>
    simp_all [isErr]

lemma setFilesGo_err (fs : List String) (ws : String) :
    ∀ (l : List String), (∃ f ∈ l, isErr (resolveOneFile fs ws f) = true) →
      isErr (setFilesGo fs ws l) = true := by
  intro l
  induction l with
  | nil => simp
  | cons g rest ih =>
    intro h
    cases hg : resolveOneFile fs ws g with
    | error e => simp [setFilesGo, hg, isErr]
    | ok p =>
      obtain ⟨f, hf, herr⟩ := h
      rcases List.mem_cons.mp hf with rfl | hf'
      · rw [hg] at herr
        simp [isErr] at herr
      · have hrec := ih ⟨f, hf', herr⟩
        cases hrest : setFilesGo fs ws rest with
        | error e => simp [setFilesGo, hg, hrest, isErr]
        | ok ps =>
          rw [hrest] at hrec
          simp [isErr] at hrec

/-- C8: when some token of the input file list exists neither as an absolute
path as given nor when resolved against the workspace root, the invocation
fails during construction: the remote mutation trace is empty, so no tag,
release or asset call is made, and the remote state is untouched. -/
theorem missing_file_fail_fast (inp : Inputs) (fs : List String) (r : Remote)
    (hbad : ∃ f ∈ splitTokens inp.filesIn,
        (existsSync fs f && isAbsolute f) = false
        ∧ existsSync fs (resolvePath inp.workspace f) = false) :
    (main inp fs r).ops = [] ∧ (main inp fs r).ok = false ∧ (main inp fs r).remote = r := by
  obtain ⟨f, hf, h1, h2⟩ := hbad
  have herr : isErr (setFilesGo fs inp.workspace (splitTokens inp.filesIn)) = true :=
    setFilesGo_err fs inp.workspace _ ⟨f, hf, resolveOneFile_err fs inp.workspace f h1 h2⟩
  cases hs : setFilesGo fs inp.workspace (splitTokens inp.filesIn) with
  | error e => simp [main, construct, setFiles, hs]
  | ok ps =>
    rw [hs] at herr
    simp [isErr] at herr

/-- Witness for the fail-fast theorem: a single missing file token stops the
run with an empty mutation trace. -/
theorem missing_file_fail_fast_witness :
    (main ⟨"r", "", "", "b", "", "", "missing.zip", "", "", "refs/heads/main", "s", "/w"⟩
        [] emptyRemote).ops = []
    ∧ (main ⟨"r", "", "", "b", "", "", "missing.zip", "", "", "refs/heads/main", "s", "/w"⟩
        [] emptyRemote).ok = false
    ∧ (main ⟨"r", "", "", "b", "", "", "missing.zip", "", "", "refs/heads/main", "s", "/w"⟩
        [] emptyRemote).remote = emptyRemote :=
  missing_file_fail_fast _ [] emptyRemote ⟨"missing.zip", by decide, by decide, by decide⟩

lemma deleteAssets_ok_inv (c : Conn) (all : Bool) (r r' : Remote) (ops : List Op)
    (h : deleteAssetsIfTheyExist c all r = Except.ok (r', ops)) :
    (∃ assets, ops = deleteLoop c.files all assets)
    ∧ r'.tags = r.tags ∧ r'.releases = r.releases ∧ r'.nextRelId = r.nextRelId := by
  unfold deleteAssetsIfTheyExist at h
  cases hga : getReleaseAssets c r with
  | error e =>
    rw [hga] at h
    exact absurd h (by simp)
  | ok o =>
    rw [hga] at h
    cases o with
    | none => simp at h
    | some assets =>
      simp only [] at h
      injection h with hpair
      rw [Prod.ext_iff] at hpair
      obtain ⟨h1, h2⟩ := hpair
      subst h1
      exact ⟨⟨assets, h2.symm⟩, rfl, rfl, rfl⟩

lemma deleteLoop_shape (files : List String) (all : Bool) :
    ∀ (assets : List Asset) (op : Op), op ∈ deleteLoop files all assets →
      ∃ i, op = Op.deleteAsset i := by
  intro assets
  induction assets with
  | nil => simp [deleteLoop]
  | cons a rest ih =>
    intro op hop
    by_cases h : shouldDeleteAsset files all a
    · rw [deleteLoop, if_pos h] at hop
      rcases List.mem_cons.mp hop with rfl | hop'
      · exact ⟨a.id, rfl⟩
      · exact ih op hop'
    · rw [deleteLoop, if_neg h] at hop
      exact ih op hop

lemma uploadAssets_inv (c : Conn) (id : Int) :
    ∀ (files : List String) (r r' : Remote) (ops : List Op),
      uploadAssets c id r files = Except.ok (r', ops) →
      r'.releases = r.releases ∧ r'.tags = r.tags ∧ r'.nextRelId = r.nextRelId
      ∧ (∀ op ∈ ops, ∃ j n, op = Op.uploadAsset j n) := by
  intro files
  induction files with
  | nil =>
    intro r r' ops h
    rw [uploadAssets] at h
    simp only [Except.ok.injEq, Prod.mk.injEq] at h
    obtain ⟨h1, h2⟩ := h
    subst h1
    subst h2
    simp
  | cons f rest ih =>
    intro r r' ops h
    rw [uploadAssets] at h
    by_cases hn : hasReleaseNamed c r
    · rw [if_pos hn] at h
      cases hrec : uploadAssets c id
          { r with assets := r.assets ++ [⟨r.nextAssetId, basename f, id⟩],
                   nextAssetId := r.nextAssetId + 1 } rest with
      | error e =>
        rw [hrec] at h
        exact absurd h (by simp)
      | ok s =>
        rw [hrec] at h
        simp only [Except.ok.injEq, Prod.mk.injEq] at h
        obtain ⟨h1, h2⟩ := h
        obtain ⟨hr1, hr2, hr3, hshape⟩ := ih _ _ _ hrec
        subst h1
        refine ⟨by simpa using hr1, by simpa using hr2, by simpa using hr3, ?_⟩
        intro op hop
        rw [← h2] at hop
        rcases List.mem_cons.mp hop with rfl | hop'
        · exact ⟨id, basename f, rfl⟩
        · exact hshape op hop'
    · rw [if_neg hn] at h
      exact absurd h (by simp)

lemma updateTag_ok_inv (c : Conn) (r r' : Remote) (ops : List Op)
    (h : updateTag c r = Except.ok (r', ops)) :
    ops = [Op.updateRef ("tags/" ++ c.tag) (Sha.commit c.sha)]
    ∧ r'.releases = r.releases
    ∧ r'.tags = r.tags.map (fun t =>
        if t.name == c.tag then { t with sha := Sha.commit c.sha } else t) := by
  unfold updateTag at h
  by_cases ha : r.tags.any (fun t => t.name == c.tag)
  · rw [if_pos ha] at h
    injection h with hpair
    rw [Prod.ext_iff] at hpair
    obtain ⟨h1, h2⟩ := hpair
    subst h1
    exact ⟨h2.symm, rfl, rfl⟩
  · rw [if_neg ha] at h
    exact absurd h (by simp)

lemma tagStage_ops (c : Conn) (r : Remote) :
    ∀ op ∈ (tagStage c r).2,
      op = Op.createTagObject c.tag c.message c.sha r.nextSha
      ∨ op = Op.createRef ("refs/tags/" ++ c.tag) (Sha.generated r.nextSha) := by
  intro op hop
  unfold tagStage at hop
  cases hg : getTag c r with
  | some e =>
    rw [hg] at hop
    simp at hop
  | none =>
    rw [hg] at hop
    simp [createTag] at hop
    rcases hop with rfl | rfl
    · exact Or.inl rfl
    · exact Or.inr rfl

lemma releaseStage_ops (c : Conn) (r : Remote) :
    ∀ op ∈ (releaseStage c r).2,
      op = Op.createRelease c.tag c.release c.body c.draft c.prerelease r.nextRelId := by
  intro op hop
  unfold releaseStage at hop
  by_cases h : doesReleaseExist c r
  · rw [if_pos h] at hop
    simp at hop
  · rw [if_neg h] at hop
    simp [createRelease] at hop
    exact hop

lemma publish_updateRef_mem (c : Conn) (r : Remote) (ops0 : List Op) (ref : String) (sha : Sha)
    (h : Op.updateRef ref sha ∈ (publishStage c r ops0).ops) :
    Op.updateRef ref sha ∈ ops0
    ∨ (isFalsyString c.updateTagIn = false ∧ ref = "tags/" ++ c.tag ∧ sha = Sha.commit c.sha) := by
  unfold publishStage at h
  revert h
  cases hid : getReleaseID c r with
  | error e =>
    intro h
    exact Or.inl h
  | ok id =>
    by_cases h0 : 0 ≤ id
    · simp only [if_pos h0]
      cases hdel : deleteAssetsIfTheyExist c (isTruthyString c.replaceIn) (updateRelease c id r).1 with
      | error e =>
        intro h
        simp only [List.mem_append] at h
        rcases h with h | h
        · exact Or.inl h
        · simp [updateRelease] at h
      | ok s4 =>
        dsimp only
        obtain ⟨⟨assets, hops4⟩, -, -, -⟩ := deleteAssets_ok_inv _ _ _ _ _ hdel
        cases hup : uploadAssets c id s4.1 c.files with
        | error e =>
          intro h
          simp only [List.mem_append] at h
          rcases h with (h | h) | h
          · exact Or.inl h
          · simp [updateRelease] at h
          · rw [hops4] at h
            obtain ⟨i, hi⟩ := deleteLoop_shape _ _ _ _ h
            exact absurd hi (by simp)
        | ok s5 =>
          dsimp only
          obtain ⟨-, -, -, hShape5⟩ := uploadAssets_inv _ _ _ _ _ _ hup
          cases hfl : isFalsyString c.updateTagIn with
          | true =>
            simp only [hfl, Bool.not_true, Bool.false_eq_true, if_false]
            intro h
            simp only [List.mem_append] at h
            rcases h with ((h | h) | h) | h
            · exact Or.inl h
            · simp [updateRelease] at h
            · rw [hops4] at h
              obtain ⟨i, hi⟩ := deleteLoop_shape _ _ _ _ h
              exact absurd hi (by simp)
            · obtain ⟨j, n, hj⟩ := hShape5 _ h
              exact absurd hj (by simp)
          | false =>
            simp only [hfl, Bool.not_false, if_true]
            cases hut : updateTag c s5.1 with
            | error e =>
              intro h
              simp only [List.mem_append] at h
              rcases h with ((h | h) | h) | h
              · exact Or.inl h
              · simp [updateRelease] at h
              · rw [hops4] at h
                obtain ⟨i, hi⟩ := deleteLoop_shape _ _ _ _ h
                exact absurd hi (by simp)
              · obtain ⟨j, n, hj⟩ := hShape5 _ h
                exact absurd hj (by simp)
            | ok s6 =>
              dsimp only
              obtain ⟨hops6, -, -⟩ := updateTag_ok_inv _ _ _ _ hut
              intro h
              simp only [List.mem_append] at h
              rcases h with (((h | h) | h) | h) | h
              · exact Or.inl h
              · simp [updateRelease] at h
              · rw [hops4] at h
                obtain ⟨i, hi⟩ := deleteLoop_shape _ _ _ _ h
                exact absurd hi (by simp)
              · obtain ⟨j, n, hj⟩ := hShape5 _ h
                exact absurd hj (by simp)
              · rw [hops6] at h
                simp at h
                obtain ⟨h1, h2⟩ := h
                exact Or.inr ⟨by trivial, h1, h2⟩
    · simp only [if_neg h0]
      intro h
      exact Or.inl h

/-- C6: the tag repoint runs only when the update-tag option is not disabled
(input not false and not no): with a falsy input no updateRef call ever
appears in the trace; any updateRef call in a trace targets tags/(tag name)
with the current commit sha and implies the option was not disabled; and a
successful repoint overwrites the sha of every listed tag of that name with
the current commit sha, whatever it pointed at before. -/
theorem tag_repoint_gating (c : Conn) (r : Remote) :
    (isFalsyString c.updateTagIn = true → ∀ ref sha, Op.updateRef ref sha ∉ (run c r).ops)
    ∧ (∀ ref sha, Op.updateRef ref sha ∈ (run c r).ops →
        isFalsyString c.updateTagIn = false ∧ ref = "tags/" ++ c.tag ∧ sha = Sha.commit c.sha)
    ∧ (∀ r' ops, updateTag c r = Except.ok (r', ops) →
        ops = [Op.updateRef ("tags/" ++ c.tag) (Sha.commit c.sha)]
        ∧ ∀ e ∈ r'.tags, e.name = c.tag → e.sha = Sha.commit c.sha) := by
  have hmem : ∀ ref sha, Op.updateRef ref sha ∈ (run c r).ops →
      isFalsyString c.updateTagIn = false ∧ ref = "tags/" ++ c.tag ∧ sha = Sha.commit c.sha := by
    intro ref sha h
    rw [run] at h
    rcases publish_updateRef_mem _ _ _ _ _ h with h | h
    · rcases List.mem_append.mp h with h | h
      · rcases tagStage_ops c r _ h with heq | heq <;> simp at heq
      · have heq := releaseStage_ops c _ _ h
        simp at heq
    · exact h
  refine ⟨?_, hmem, ?_⟩
  · intro hfl ref sha h
    have := (hmem ref sha h).1
    rw [hfl] at this
    exact Bool.true_eq_false.mp this
  · intro r' ops h
    obtain ⟨hops, -, htags⟩ := updateTag_ok_inv _ _ _ _ h
    refine ⟨hops, ?_⟩
    intro e he hname
    rw [htags] at he
    obtain ⟨t, ht, hte⟩ := List.mem_map.mp he
    by_cases hcase : (t.name == c.tag) = true
    · rw [if_pos hcase] at hte
      rw [← hte]
    · rw [if_neg hcase] at hte
      subst hte
      exact absurd (by simpa using hname) hcase

/-- Witness for the tag repoint theorem: with the option set to no, the run
on the empty remote contains no ref update. -/
theorem tag_repoint_gating_witness :
    ∀ ref sha, Op.updateRef ref sha ∉
      (run { release := "v1.0", tag := "v1.0", message := "", body := "", draft := false,
             prerelease := false, files := [], sha := "s", replaceIn := "", updateTagIn := "no" }
        emptyRemote).ops :=
  (tag_repoint_gating _ emptyRemote).1 (by decide)

lemma tagStage_releases (c : Conn) (r : Remote) : (tagStage c r).1.releases = r.releases := by
  unfold tagStage
  cases hg : getTag c r <;> simp [createTag]

lemma tagStage_nextRelId (c : Conn) (r : Remote) : (tagStage c r).1.nextRelId = r.nextRelId := by
  unfold tagStage
  cases hg : getTag c r <;> simp [createTag]

lemma tagStage_tags_any (c : Conn) (r : Remote) :
    (tagStage c r).1.tags.any (fun t => t.name == c.tag) = true := by
  unfold tagStage
  cases hg : getTag c r with
  | some e =>
    dsimp only
    have he' : r.tags.find? (fun t => t.name == c.tag) = some e := hg
    have hmem := List.mem_of_find?_eq_some he'
    have hp := List.find?_some he'
    exact List.any_eq_true.mpr ⟨e, hmem, by simpa using hp⟩
  | none =>
    simp [createTag]

lemma tagStage_ops_nil_of_any (c : Conn) (r : Remote)
    (h : r.tags.any (fun t => t.name == c.tag) = true) : (tagStage c r).2 = [] := by
  have hsome : (r.tags.find? (fun t => t.name == c.tag)).isSome := by
    rw [List.find?_isSome]
    obtain ⟨t, hmem, hp⟩ := List.any_eq_true.mp h
    exact ⟨t, hmem, hp⟩
  obtain ⟨e, he⟩ := Option.isSome_iff_exists.mp hsome
  unfold tagStage
  have he' : getTag c r = some e := he
  rw [he']

lemma releaseStage_exists (c : Conn) (r : Remote) (h : doesReleaseExist c r = true) :
    releaseStage c r = (r, []) := by
  simp [releaseStage, h]

lemma releaseStage_create_fields (c : Conn) (r : Remote) (h : doesReleaseExist c r = false) :
    (releaseStage c r).1.releases
      = (⟨r.nextRelId, c.release, c.tag, c.body, c.draft, c.prerelease⟩ : Release) :: r.releases
    ∧ (releaseStage c r).1.tags = r.tags
    ∧ (releaseStage c r).1.nextRelId = r.nextRelId + 1 := by
  unfold releaseStage
  simp [h, createRelease]

lemma doesReleaseExist_eq_false (c : Conn) (r : Remote)
    (h : r.releases.filter (fun rel => rel.name == c.release) = []) :
    doesReleaseExist c r = false := by
  unfold doesReleaseExist
  rw [Bool.eq_false_iff]
  intro hc
  have hmem : c.release ∈ r.releases.map Release.name := List.elem_iff.mp hc
  obtain ⟨rel, hrel, hname⟩ := List.mem_map.mp hmem
  have hfalse := List.filter_eq_nil_iff.mp h rel hrel
  simp [hname] at hfalse

lemma doesReleaseExist_eq_true (c : Conn) (r : Remote) (rel : Release)
    (hmem : rel ∈ r.releases) (hname : rel.name = c.release) :
    doesReleaseExist c r = true := by
  unfold doesReleaseExist
  exact List.elem_iff.mpr (List.mem_map.mpr ⟨rel, hmem, hname⟩)

lemma map_update_not_present (c : Conn) (i : Int) :
    ∀ (l : List Release), (∀ rel ∈ l, rel.id ≠ i) →
      (l.map (fun rel => if rel.id == i then
          { rel with name := c.release, body := c.body, draft := c.draft, prerelease := c.prerelease }
        else rel)) = l := by
  intro l hl
  induction l with
  | nil => rfl
  | cons a rest ih =>
    have ha : (a.id == i) = false := by
      simpa using hl a (by simp)
    simp only [List.map_cons, ha, Bool.false_eq_true, if_false]
    rw [ih (fun rel hr => hl rel (by simp [hr]))]

lemma tags_any_map_update (c : Conn) (l : List TagEntry)
    (hl : l.any (fun t => t.name == c.tag) = true) :
    (l.map (fun t => if t.name == c.tag then { t with sha := Sha.commit c.sha } else t)).any
      (fun t => t.name == c.tag) = true := by
  obtain ⟨t, htmem, htp⟩ := List.any_eq_true.mp hl
  refine List.any_eq_true.mpr
    ⟨if t.name == c.tag then { t with sha := Sha.commit c.sha } else t,
     List.mem_map_of_mem _ htmem, ?_⟩
  rw [if_pos htp]
  simpa using htp

lemma deleteAssets_ok_exists (c : Conn) (all : Bool) (r : Remote) (i : Int)
    (hid : getReleaseID c r = Except.ok i) (hpos : 0 ≤ i) :
    deleteAssetsIfTheyExist c all r = Except.ok
      ({ r with assets := r.assets.filter (fun a =>
          !((r.assets.filter (fun a => a.releaseId == i)).contains a
            && shouldDeleteAsset c.files all a)) },
       deleteLoop c.files all (r.assets.filter (fun a => a.releaseId == i))) := by
  have hga : getReleaseAssets c r
      = Except.ok (some (r.assets.filter (fun a => a.releaseId == i))) := by
    unfold getReleaseAssets
    simp only [hid]
    rw [if_neg (by omega)]
  unfold deleteAssetsIfTheyExist
  rw [hga]

lemma uploadAssets_ok_exists (c : Conn) (id : Int) :
    ∀ (files : List String) (r : Remote), hasReleaseNamed c r = true →
      ∃ s, uploadAssets c id r files = Except.ok s := by
  intro files
  induction files with
  | nil =>
    intro r _
    exact ⟨(r, []), rfl⟩
  | cons f rest ih =>
    intro r h
    have h1 : hasReleaseNamed c
        { r with assets := r.assets ++ [⟨r.nextAssetId, basename f, id⟩],
                 nextAssetId := r.nextAssetId + 1 } = true := by
      simpa [hasReleaseNamed] using h
    obtain ⟨s, hs⟩ := ih _ h1
    rw [uploadAssets, if_pos h, hs]
    exact ⟨(s.1, Op.uploadAsset id (basename f) :: s.2), rfl⟩

lemma updateTag_ok_exists (c : Conn) (r : Remote)
    (h : r.tags.any (fun t => t.name == c.tag) = true) :
    updateTag c r = Except.ok
      ({ r with tags := r.tags.map (fun t =>
          if t.name == c.tag then { t with sha := Sha.commit c.sha } else t) },
       [Op.updateRef ("tags/" ++ c.tag) (Sha.commit c.sha)]) := by
  unfold updateTag
  rw [if_pos h]

lemma publish_master (c : Conn) (r : Remote) (ops0 : List Op)
    (topRel : Release) (rest : List Release)
    (hrel : r.releases = topRel :: rest)
    (hname : topRel.name = c.release)
    (hids : ∀ rel ∈ rest, rel.id ≠ topRel.id)
    (hpos : 0 ≤ topRel.id)
    (htag : r.tags.any (fun t => t.name == c.tag) = true) :
    (publishStage c r ops0).failed = false
    ∧ (publishStage c r ops0).remote.releases
        = ({ topRel with name := c.release, body := c.body, draft := c.draft, prerelease := c.prerelease } : Release) :: rest
    ∧ (publishStage c r ops0).remote.tags.any (fun t => t.name == c.tag) = true
    ∧ (∀ op ∈ (publishStage c r ops0).ops, op ∈ ops0 ∨ isCreateRel op = false) := by
  have hid : getReleaseID c r = Except.ok topRel.id := by
    unfold getReleaseID
    rw [hrel]
    simp [findReleaseId, hname]
  have hbeq : (topRel.id == topRel.id) = true := beq_self_eq_true topRel.id
  have hupdrel : (updateRelease c topRel.id r).1.releases
      = ({ topRel with name := c.release, body := c.body, draft := c.draft, prerelease := c.prerelease } : Release) :: rest := by
    simp only [updateRelease]
    rw [hrel]
    simp only [List.map_cons, hbeq, if_true]
    rw [map_update_not_present c topRel.id rest hids]
  have hupdtags : (updateRelease c topRel.id r).1.tags = r.tags := rfl
  have hupdid : getReleaseID c (updateRelease c topRel.id r).1 = Except.ok topRel.id := by
    unfold getReleaseID
    rw [hupdrel]
    simp [findReleaseId]
  obtain ⟨s4, hdel⟩ : ∃ s4, deleteAssetsIfTheyExist c (isTruthyString c.replaceIn)
      (updateRelease c topRel.id r).1 = Except.ok s4 :=
    ⟨_, deleteAssets_ok_exists c _ _ topRel.id hupdid hpos⟩
  obtain ⟨⟨assets4, hops4⟩, h4tags, h4rel, -⟩ := deleteAssets_ok_inv _ _ _ _ _ hdel
  have hhas : hasReleaseNamed c s4.1 = true := by
    unfold hasReleaseNamed
    rw [h4rel, hupdrel]
    simp
  obtain ⟨s5, hup⟩ := uploadAssets_ok_exists c topRel.id c.files s4.1 hhas
  obtain ⟨h5rel, h5tags, -, h5shape⟩ := uploadAssets_inv _ _ _ _ _ _ hup
  have h5relr : s5.1.releases
      = ({ topRel with name := c.release, body := c.body, draft := c.draft, prerelease := c.prerelease } : Release) :: rest := by
    rw [h5rel, h4rel, hupdrel]
  have h5any : s5.1.tags.any (fun t => t.name == c.tag) = true := by
    rw [h5tags, h4tags, hupdtags]
    exact htag
  cases hfl : isFalsyString c.updateTagIn with
  | true =>
    have hpub : publishStage c r ops0
        = ⟨s5.1, ops0 ++ (updateRelease c topRel.id r).2 ++ s4.2 ++ s5.2, false⟩ := by
      unfold publishStage
      simp only [hid]
      rw [if_pos hpos]
      simp only [hdel, hup, hfl, Bool.not_true, Bool.false_eq_true, if_false]
    rw [hpub]
    refine ⟨rfl, h5relr, h5any, ?_⟩
    intro op hop
    simp only [List.mem_append] at hop
    rcases hop with ((hop | hop) | hop) | hop
    · exact Or.inl hop
    · right
      simp [updateRelease] at hop
      subst hop
      rfl
    · right
      rw [hops4] at hop
      obtain ⟨i, hi⟩ := deleteLoop_shape _ _ _ _ hop
      subst hi
      rfl
    · right
      obtain ⟨j, n, hj⟩ := h5shape _ hop
      subst hj
      rfl
  | false =>
    have hut := updateTag_ok_exists c s5.1 h5any
    have hpub : publishStage c r ops0
        = ⟨{ s5.1 with tags := s5.1.tags.map (fun t =>
              if t.name == c.tag then { t with sha := Sha.commit c.sha } else t) },
           ops0 ++ (updateRelease c topRel.id r).2 ++ s4.2 ++ s5.2
             ++ [Op.updateRef ("tags/" ++ c.tag) (Sha.commit c.sha)], false⟩ := by
      unfold publishStage
      simp only [hid]
      rw [if_pos hpos]
      simp only [hdel, hup, hfl, Bool.not_false, if_true, hut]
    rw [hpub]
    refine ⟨rfl, by simpa using h5relr, tags_any_map_update c _ h5any, ?_⟩
    intro op hop
    simp only [List.mem_append] at hop
    rcases hop with (((hop | hop) | hop) | hop) | hop
    · exact Or.inl hop
    · right
      simp [updateRelease] at hop
      subst hop
      rfl
    · right
      rw [hops4] at hop
      obtain ⟨i, hi⟩ := deleteLoop_shape _ _ _ _ hop
      subst hi
      rfl
    · right
      obtain ⟨j, n, hj⟩ := h5shape _ hop
      subst hj
      rfl
    · right
      simp at hop
      subst hop
      rfl

/-- C1: running the full reconciliation twice with identical inputs from a
well-formed remote state holding no release of the resolved name: both runs
succeed, the second run's existence check finds the release created by the
first run by name and takes the update path, so its trace contains no release
creation, and afterwards exactly one release of that name exists, carrying
the final run's body, draft and prerelease values. -/
theorem release_convergence (c : Conn) (r0 : Remote)
    (hno : r0.releases.filter (fun rel => rel.name == c.release) = [])
    (hwf : ∀ rel ∈ r0.releases, rel.id < r0.nextRelId)
    (hpos : 0 ≤ r0.nextRelId) :
    (run c r0).failed = false
    ∧ (run c (run c r0).remote).failed = false
    ∧ doesReleaseExist c (run c r0).remote = true
    ∧ (∀ op ∈ (run c (run c r0).remote).ops, isCreateRel op = false)
    ∧ ∃ rel,
        (run c (run c r0).remote).remote.releases.filter (fun x => x.name == c.release) = [rel]
        ∧ rel.body = c.body ∧ rel.draft = c.draft ∧ rel.prerelease = c.prerelease := by
  have hids : ∀ rel ∈ r0.releases,
      rel.id ≠ (⟨r0.nextRelId, c.release, c.tag, c.body, c.draft, c.prerelease⟩ : Release).id :=
    fun rel hr => ne_of_lt (hwf rel hr)
  have hDRE : doesReleaseExist c (tagStage c r0).1 = false := by
    apply doesReleaseExist_eq_false
    rw [tagStage_releases]
    exact hno
  obtain ⟨hXrel, hXtags, hXid⟩ := releaseStage_create_fields c (tagStage c r0).1 hDRE
  have hXrel' : (releaseStage c (tagStage c r0).1).1.releases
      = (⟨r0.nextRelId, c.release, c.tag, c.body, c.draft, c.prerelease⟩ : Release)
        :: r0.releases := by
    rw [hXrel, tagStage_nextRelId, tagStage_releases]
  have hXany : (releaseStage c (tagStage c r0).1).1.tags.any
      (fun t => t.name == c.tag) = true := by
    rw [hXtags]
    exact tagStage_tags_any c r0
  obtain ⟨hf1, hrel1, hany1, hops1⟩ :=
    publish_master c (releaseStage c (tagStage c r0).1).1
      ((tagStage c r0).2 ++ (releaseStage c (tagStage c r0).1).2)
      (⟨r0.nextRelId, c.release, c.tag, c.body, c.draft, c.prerelease⟩ : Release)
      r0.releases hXrel' rfl hids hpos hXany
  have hrel1' : (run c r0).remote.releases
      = (⟨r0.nextRelId, c.release, c.tag, c.body, c.draft, c.prerelease⟩ : Release)
        :: r0.releases := hrel1
  have hany1' : (run c r0).remote.tags.any (fun t => t.name == c.tag) = true := hany1
  have hDRE1 : doesReleaseExist c (run c r0).remote = true := by
    apply doesReleaseExist_eq_true c _
      (⟨r0.nextRelId, c.release, c.tag, c.body, c.draft, c.prerelease⟩ : Release)
    · rw [hrel1']
      exact List.mem_cons_self _ _
    · rfl
  have hops2nil : (tagStage c (run c r0).remote).2 = [] :=
    tagStage_ops_nil_of_any c _ hany1'
  have hDRE2 : doesReleaseExist c (tagStage c (run c r0).remote).1 = true := by
    apply doesReleaseExist_eq_true c _
      (⟨r0.nextRelId, c.release, c.tag, c.body, c.draft, c.prerelease⟩ : Release)
    · rw [tagStage_releases, hrel1']
      exact List.mem_cons_self _ _
    · rfl
  have hRS2 : releaseStage c (tagStage c (run c r0).remote).1
      = ((tagStage c (run c r0).remote).1, []) :=
    releaseStage_exists _ _ hDRE2
  have hX2rel : (releaseStage c (tagStage c (run c r0).remote).1).1.releases
      = (⟨r0.nextRelId, c.release, c.tag, c.body, c.draft, c.prerelease⟩ : Release)
        :: r0.releases := by
    rw [hRS2]
    show (tagStage c (run c r0).remote).1.releases = _
    rw [tagStage_releases]
    exact hrel1'
  have hX2any : (releaseStage c (tagStage c (run c r0).remote).1).1.tags.any
      (fun t => t.name == c.tag) = true := by
    rw [hRS2]
    show (tagStage c (run c r0).remote).1.tags.any (fun t => t.name == c.tag) = true
    exact tagStage_tags_any c _
  obtain ⟨hf2, hrel2, hany2, hops2⟩ :=
    publish_master c (releaseStage c (tagStage c (run c r0).remote).1).1
      ((tagStage c (run c r0).remote).2
        ++ (releaseStage c (tagStage c (run c r0).remote).1).2)
      (⟨r0.nextRelId, c.release, c.tag, c.body, c.draft, c.prerelease⟩ : Release)
      r0.releases hX2rel rfl hids hpos hX2any
  refine ⟨hf1, hf2, hDRE1, ?_, ?_⟩
  · intro op hop
    rcases hops2 op hop with hin | hfalse
    · exfalso
      rcases List.mem_append.mp hin with hin | hin
      · rw [hops2nil] at hin
        simp at hin
      · rw [hRS2] at hin
        simp at hin
    · exact hfalse
  · refine ⟨⟨r0.nextRelId, c.release, c.tag, c.body, c.draft, c.prerelease⟩, ?_, rfl, rfl, rfl⟩
    have hrel2' : (run c (run c r0).remote).remote.releases
        = (⟨r0.nextRelId, c.release, c.tag, c.body, c.draft, c.prerelease⟩ : Release)
          :: r0.releases := hrel2
    rw [hrel2']
    simp [List.filter_cons, hno]

/-- Witness for the convergence theorem: a concrete connection run twice on
the empty remote. -/
theorem release_convergence_witness :
    (run { release := "v1.0", tag := "v1.0", message := "m", body := "b", draft := true,
           prerelease := false, files := [], sha := "s", replaceIn := "", updateTagIn := "" }
       emptyRemote).failed = false
    ∧ (run { release := "v1.0", tag := "v1.0", message := "m", body := "b", draft := true,
             prerelease := false, files := [], sha := "s", replaceIn := "", updateTagIn := "" }
        (run { release := "v1.0", tag := "v1.0", message := "m", body := "b", draft := true,
               prerelease := false, files := [], sha := "s", replaceIn := "", updateTagIn := "" }
           emptyRemote).remote).failed = false
    ∧ doesReleaseExist
        { release := "v1.0", tag := "v1.0", message := "m", body := "b", draft := true,
          prerelease := false, files := [], sha := "s", replaceIn := "", updateTagIn := "" }
        (run { release := "v1.0", tag := "v1.0", message := "m", body := "b", draft := true,
               prerelease := false, files := [], sha := "s", replaceIn := "", updateTagIn := "" }
           emptyRemote).remote = true
    ∧ (∀ op ∈ (run { release := "v1.0", tag := "v1.0", message := "m", body := "b", draft := true,
                     prerelease := false, files := [], sha := "s", replaceIn := "", updateTagIn := "" }
        (run { release := "v1.0", tag := "v1.0", message := "m", body := "b", draft := true,
               prerelease := false, files := [], sha := "s", replaceIn := "", updateTagIn := "" }
           emptyRemote).remote).ops, isCreateRel op = false)
    ∧ ∃ rel,
        (run { release := "v1.0", tag := "v1.0", message := "m", body := "b", draft := true,
               prerelease := false, files := [], sha := "s", replaceIn := "", updateTagIn := "" }
          (run { release := "v1.0", tag := "v1.0", message := "m", body := "b", draft := true,
                 prerelease := false, files := [], sha := "s", replaceIn := "", updateTagIn := "" }
             emptyRemote).remote).remote.releases.filter
            (fun x => x.name == "v1.0") = [rel]
        ∧ rel.body = "b" ∧ rel.draft = true ∧ rel.prerelease = false :=
  release_convergence
    { release := "v1.0", tag := "v1.0", message := "m", body := "b", draft := true,
      prerelease := false, files := [], sha := "s", replaceIn := "", updateTagIn := "" }
    emptyRemote (by decide) (by decide) (by decide)

end UER
